import Mathlib

/-!
Verification development for the `@de44/dotenv` environment-variable loader
(`src/Dotenv.ts`, `src/zodUtils.ts`).  The TypeScript source is shallowly
embedded below: JavaScript strings are represented as `List Char`, the
JavaScript string built-ins the source relies on are modelled as structural
Lean functions, and the stateful parser/loader is embedded as explicit state
passing.
-/

namespace Dotenv

/-- Characters of one JavaScript string.  All embedded operations work on
character lists so that every definition reduces inside the kernel. -/
abbrev Chars := List Char

/-- Model of the JavaScript `String.prototype.trim` for the ASCII whitespace
characters the repository's inputs use (space, tab, carriage return, line
feed). -/
def jsTrim (s : Chars) : Chars :=
  ((s.dropWhile Char.isWhitespace).reverse.dropWhile Char.isWhitespace).reverse

/-- Model of the JavaScript `String.prototype.startsWith`. -/
def jsStartsWith (s pre : Chars) : Bool :=
  match pre, s with
  | [], _ => true
  | _ :: _, [] => false
  | p :: ps, c :: cs => p = c && jsStartsWith cs ps

/-- Model of the JavaScript `String.prototype.endsWith`. -/
def jsEndsWith (s suf : Chars) : Bool :=
  jsStartsWith s.reverse suf.reverse

/-- Model of the JavaScript `String.prototype.toLowerCase` on ASCII data. -/
def jsToLower (s : Chars) : Chars :=
  s.map Char.toLower

/-- Model of the JavaScript `String.prototype.split` with a one-character
separator (the source only splits on `"\n"` and `","`).  Like in JavaScript,
splitting the empty string yields `[""]`. -/
def jsSplit (sep : Char) : Chars → List Chars
  | [] => [[]]
  | c :: rest =>
    match jsSplit sep rest with
    | [] => [[c]]
    | g :: gs => if c = sep then [] :: g :: gs else (c :: g) :: gs

/-- Model of the JavaScript `Array.prototype.join` with a string separator. -/
def jsJoin (sep : Chars) : List Chars → Chars
  | [] => []
  | [x] => x
  | x :: y :: rest => x ++ sep ++ jsJoin sep (y :: rest)

/-- Model of the JavaScript `String.prototype.indexOf` for a one-character
needle: the index of the first occurrence, or `none` where JavaScript
returns `-1`. -/
def jsIndexOf (s : Chars) (c : Char) : Option Nat :=
  s.findIdx? (· = c)

/-- Decimal digit characters rendered without any partial function. -/
def digitChar : Nat → Char
  | 0 => '0' | 1 => '1' | 2 => '2' | 3 => '3' | 4 => '4'
  | 5 => '5' | 6 => '6' | 7 => '7' | 8 => '8' | _ => '9'

/-- Fuel-driven decimal rendering of a natural number (structural recursion
so that the kernel can evaluate it). -/
def natToCharsAux : Nat → Nat → Chars
  | 0, _ => []
  | fuel + 1, n =>
    if n < 10 then [digitChar n]
    else natToCharsAux fuel (n / 10) ++ [digitChar (n % 10)]

/-- Decimal rendering of a natural number. -/
def natToChars (n : Nat) : Chars := natToCharsAux (n + 1) n

/-- Decimal rendering of an integer, mirroring JavaScript's rendering of
integral numbers. -/
def intToChars (i : Int) : Chars :=
  if i < 0 then '-' :: natToChars i.natAbs else natToChars i.toNat

/-- Numeric value of a list of decimal digit characters. -/
def digitsToNat (ds : Chars) : Nat :=
  ds.foldl (fun a c => a * 10 + (c.toNat - 48)) 0

/-- An exact decimal number `num / 10 ^ den10`, the fragment of JavaScript
numbers this development needs.  Values produced through `mkJSNum` are
canonical: `den10 = 0` whenever `num = 0` or `num` is not divisible by ten,
so equality of canonical values is plain structural equality. -/
structure JSNum where
  num : Int
  den10 : Nat
deriving DecidableEq, Repr

/-- Remove common factors of ten between the mantissa and the power-of-ten
denominator (structural recursion on the denominator exponent). -/
def stripTens : Int → Nat → Int × Nat
  | m, 0 => (m, 0)
  | m, d + 1 => if m % 10 = 0 then stripTens (m / 10) d else (m, d + 1)

/-- Canonical constructor for `JSNum`. -/
def mkJSNum (m : Int) (d : Nat) : JSNum :=
  if m = 0 then ⟨0, 0⟩
  else
    let p := stripTens m d
    ⟨p.1, p.2⟩

/-- Negation of an exact decimal (canonical form is preserved). -/
def JSNum.neg (n : JSNum) : JSNum := ⟨-n.num, n.den10⟩

/-- Model of the JavaScript `Number(string)` conversion on the decimal
fragment the repository exercises: optional sign, integer part, optional
fractional part, optional exponent.  Returns `none` where JavaScript yields
`NaN`.  Syntaxes outside this fragment (hex literals, `Infinity`) are not
modelled; no theorem below depends on them, and double rounding is
deliberately ignored (the decimal value is kept exact). -/
def parseDecCore (cs : Chars) : Option JSNum :=
  let ip := cs.takeWhile Char.isDigit
  let rest := cs.dropWhile Char.isDigit
  let fp := match rest with
    | '.' :: r => r.takeWhile Char.isDigit
    | _ => []
  let rest2 := match rest with
    | '.' :: r => r.dropWhile Char.isDigit
    | _ => rest
  if ip = [] && fp = [] then none
  else
    let m0 : Nat := digitsToNat (ip ++ fp)
    let scale : Nat := fp.length
    let withExp : Int → Option JSNum := fun k =>
      let e : Int := k - (scale : Int)
      if 0 ≤ e then some (mkJSNum ((m0 : Int) * (10 : Int) ^ e.toNat) 0)
      else some (mkJSNum (m0 : Int) (-e).toNat)
    match rest2 with
    | [] => withExp 0
    | e :: r3 =>
      if e = 'e' || e = 'E' then
        let neg : Bool := match r3 with | '-' :: _ => true | _ => false
        let r4 : Chars := match r3 with
          | '+' :: r => r
          | '-' :: r => r
          | _ => r3
        let ed := r4.takeWhile Char.isDigit
        let r5 := r4.dropWhile Char.isDigit
        if ed = [] || r5 ≠ [] then none
        else withExp (if neg then -(digitsToNat ed : Int) else (digitsToNat ed : Int))
      else none

/-- Model of `Number(string)`: whitespace/empty handling, sign handling,
then `parseDecCore`.  The empty (or all-whitespace) string converts to `0`
as in JavaScript. -/
def jsNumberOpt (s : Chars) : Option JSNum :=
  let t := jsTrim s
  if t = [] then some (mkJSNum 0 0)
  else
    match t with
    | '-' :: r => (parseDecCore r).map JSNum.neg
    | '+' :: r => parseDecCore r
    | _ => parseDecCore t

/-- Model of JavaScript's number-to-string rendering on the exact decimal
fragment: integers render without a point, other values with an explicit
decimal point (leading zeros added as needed).  Exact on the values this
development evaluates. -/
def jsNumToChars (n : JSNum) : Chars :=
  if n.den10 = 0 then intToChars n.num
  else
    let s := natToChars n.num.natAbs
    let s' := List.replicate (n.den10 + 1 - s.length) '0' ++ s
    let ip := s'.take (s'.length - n.den10)
    let fp := s'.drop (s'.length - n.den10)
    (if n.num < 0 then ['-'] else []) ++ ip ++ ['.'] ++ fp

/-- A JavaScript runtime value as stored in the parse result
(`Record<string, unknown>` in the source): a string, a coerced number,
boolean or null, or a structure produced by `JSON.parse`. -/
inductive JSValue where
  | str (s : Chars)
  | num (n : JSNum)
  | bool (b : Bool)
  | null
  | arr (elems : List JSValue)
  | obj (fields : List (Chars × JSValue))

/-- The host JSON parser (`JSON.parse`).  It is an external collaborator of
the source, so it is kept abstract; theorems that depend on its outcome take
that outcome as a hypothesis. -/
structure Js where
  jsonParse : Chars → Option JSValue

/-- A `Js` runtime whose JSON parser rejects everything; used to instantiate
closed statements whose truth does not depend on `JSON.parse`. -/
def jsNone : Js := ⟨fun _ => none⟩

/-- Model of JavaScript's `String(value)` conversion for the value shapes
the loader can store: strings pass through, numbers render decimally,
booleans and null render as their keywords, arrays join their rendered
elements with commas (null elements render empty), objects render as
`[object Object]`. -/
def jsString : JSValue → Chars
  | .str s => s
  | .num n => jsNumToChars n
  | .bool b => if b then "true".toList else "false".toList
  | .null => "null".toList
  | .obj _ => "[object Object]".toList
  | .arr xs => jsJoin [','] (xs.map fun x =>
      match x with
      | .null => []
      | .obj _ => "[object Object]".toList
      | .str s => s
      | .num n => jsNumToChars n
      | .bool b => if b then "true".toList else "false".toList
      | .arr _ => [])

/-- Model of a JavaScript object assignment `m[k] = v` on an object viewed
through `Object.entries`: an existing key keeps its position and gets the
new value, a new key is appended. -/
def setEntry {α : Type} (m : List (Chars × α)) (k : Chars) (v : α) : List (Chars × α) :=
  if m.any (fun p => p.1 = k) then
    m.map (fun p => if p.1 = k then (k, v) else p)
  else m ++ [(k, v)]

/-- Model of a JavaScript property read `m[k]`: the value at the first
entry with key `k`, if any (objects built through `setEntry` never hold a
key twice, so the first entry is the only one). -/
def lookupVal {α : Type} : List (Chars × α) → Chars → Option α
  | [], _ => none
  | p :: m, k => if p.1 = k then some p.2 else lookupVal m k

/-- The value bound to `k` by the latest of possibly several entries with
key `k` (JavaScript object literals and repeated assignments keep the last
write). -/
def lookupLast {α : Type} (m : List (Chars × α)) (k : Chars) : Option α :=
  lookupVal m.reverse k

/-- The keys of an entry list, in order. -/
def keysOf {α : Type} (m : List (Chars × α)) : List Chars :=
  m.map Prod.fst

/-- Assign each entry of `es` into `m` in order, as the source's
`for (const [key, value] of Object.entries(envVars))` loop does. -/
def applyEntries {α : Type} (m : List (Chars × α)) (es : List (Chars × α)) : List (Chars × α) :=
  es.foldl (fun acc p => setEntry acc p.1 p.2) m

/-- Embedding of `Dotenv.unescapeString`: replace every escaped double
quote `\"` by `"` (the global regex replace scans left to right). -/
def unescapeString : Chars → Chars
  | '\\' :: '"' :: rest => '"' :: unescapeString rest
  | c :: rest => c :: unescapeString rest
  | [] => []

/-- Embedding of `Dotenv.hasClosingQuote`: the source scans from the end of
the line for a double quote that is not preceded by a backslash; the scan
direction does not affect the boolean outcome, so the model scans forward
tracking the previous character. -/
def hasClosingQuoteAux : Option Char → Chars → Bool
  | _, [] => false
  | prev, c :: rest =>
    (decide (c = '"') && (match prev with
      | none => true
      | some p => decide (p ≠ '\\'))) || hasClosingQuoteAux (some c) rest

/-- Embedding of `Dotenv.hasClosingQuote`. -/
def hasClosingQuote (line : Chars) : Bool :=
  hasClosingQuoteAux none line

/-- Embedding of `Dotenv.hasClosingTripleQuotes`: the line, trimmed, ends
with the triple double-quote marker. -/
def hasClosingTripleQuotes (line : Chars) : Bool :=
  jsEndsWith (jsTrim line) "\"\"\"".toList

/-- Embedding of `Dotenv.processValue`: strip a triple-quote or single
double-quote wrapper and unescape, otherwise trim.  `slice(3, -3)` and
`slice(1, -1)` are modelled with JavaScript's clamping semantics. -/
def processValue (value : Chars) : Chars :=
  if jsStartsWith value "\"\"\"".toList && jsEndsWith value "\"\"\"".toList then
    unescapeString ((value.drop 3).take (value.length - 6))
  else if jsStartsWith value "\"".toList && jsEndsWith value "\"".toList then
    unescapeString ((value.drop 1).take (value.length - 2))
  else jsTrim value

/-- Embedding of `Dotenv.coerceValue`: try `JSON.parse` when the trimmed
value starts with `{` or `[` (falling through on failure), then
case-insensitive `true`/`false`/`null`, then `Number` conversion (with the
source's redundant empty-string guard kept), otherwise return the original
string. -/
def coerceValue (js : Js) (value : Chars) : JSValue :=
  let trimmed := jsTrim value
  let afterJson : JSValue :=
    if jsToLower trimmed = "true".toList then .bool true
    else if jsToLower trimmed = "false".toList then .bool false
    else if jsToLower trimmed = "null".toList then .null
    else
      match jsNumberOpt trimmed with
      | some num =>
        if trimmed ≠ [] then
          if trimmed ≠ [] || num ≠ mkJSNum 0 0 then .num num else .str value
        else .str value
      | none => .str value
  if jsStartsWith trimmed ['\x7b'] || jsStartsWith trimmed ['['] then
    match js.jsonParse trimmed with
    | some parsed => parsed
    | none => afterJson
  else afterJson

/-- The parser state of `Dotenv.parseEnvFile`: the accumulated result
object and the `currentKey` / `currentValue` / `inMultiline` /
`wasMultiline` locals. -/
structure ParseState where
  envVars : List (Chars × JSValue)
  currentKey : Option Chars
  currentValue : List Chars
  inMultiline : Bool
  wasMultiline : Bool

/-- The initial parser state. -/
def initState : ParseState :=
  ⟨[], none, [], false, false⟩

/-- Finalization of a pending value, as in the save step `parseEnvFile`
performs both when a new key starts and after the loop: join the value
lines with newlines, unescape (multi-line block) or normalize (otherwise),
and coerce when coercion is enabled. -/
def finalizeValue (js : Js) (coerce : Bool) (currentValue : List Chars)
    (wasMultiline : Bool) : JSValue :=
  let rawValue :=
    if wasMultiline then unescapeString (jsJoin ['\n'] currentValue)
    else processValue (jsJoin ['\n'] currentValue)
  if coerce then coerceValue js rawValue else .str rawValue

/-- JavaScript truthiness of the `currentKey` variable
(`string | null`): `null` and the empty string are both falsy, so the
source's `currentKey && ...` guards skip an empty-string pending key. -/
def keyTruthy : Option Chars → Bool
  | none => false
  | some k => k ≠ []

/-- The assignment of a finalized pending key into the result object,
guarded by `if (currentKey && currentValue.length > 0)`: the key must be
truthy (non-null and non-empty) for the save to happen. -/
def saveCurrent (js : Js) (coerce : Bool) (envVars : List (Chars × JSValue))
    (currentKey : Option Chars) (currentValue : List Chars)
    (wasMultiline : Bool) : List (Chars × JSValue) :=
  match currentKey with
  | none => envVars
  | some key =>
    if key ≠ [] ∧ currentValue.length > 0 then
      setEntry envVars key (finalizeValue js coerce currentValue wasMultiline)
    else envVars

/-- One iteration of the `for` loop of `Dotenv.parseEnvFile`, in the
source's branch order: comment skip, blank-line skip, new-key start (with
value-start classification), multi-line continuation, plain continuation. -/
def processLine (js : Js) (coerce : Bool) (st : ParseState) (line : Chars) : ParseState :=
  let trimmedLine := jsTrim line
  if jsStartsWith trimmedLine ['#'] then st
  else if trimmedLine = [] && !st.inMultiline then st
  else
    let equalsIndex := jsIndexOf line '='
    if equalsIndex.isSome && !st.inMultiline then
      -- new key-value pair; `getD` is safe under the `isSome` guard
      let i := equalsIndex.getD 0
      let envVars := saveCurrent js coerce st.envVars st.currentKey st.currentValue st.wasMultiline
      let currentKey := jsTrim (line.take i)
      let valueStart := line.drop (i + 1)
      if jsStartsWith valueStart "\"\"\"".toList then
        let afterQuotes := valueStart.drop 3
        { envVars := envVars, currentKey := some currentKey,
          currentValue := if afterQuotes ≠ [] then [afterQuotes] else [],
          inMultiline := true, wasMultiline := true }
      else if jsStartsWith valueStart "\"".toList then
        -- the source's two sub-branches are textually identical
        if hasClosingQuote valueStart then
          { envVars := envVars, currentKey := some currentKey,
            currentValue := [valueStart], inMultiline := false, wasMultiline := false }
        else
          { envVars := envVars, currentKey := some currentKey,
            currentValue := [valueStart], inMultiline := false, wasMultiline := false }
      else
        { envVars := envVars, currentKey := some currentKey,
          currentValue := [valueStart], inMultiline := false, wasMultiline := false }
    else if st.inMultiline && keyTruthy st.currentKey then
      -- push the line, then replace the just-pushed last element when it
      -- closes the block (`lastLine` in the source is exactly `line`)
      if hasClosingTripleQuotes line then
        { st with currentValue := st.currentValue ++ [line.take (line.length - 3)],
                  inMultiline := false }
      else { st with currentValue := st.currentValue ++ [line] }
    else if keyTruthy st.currentKey then
      { st with currentValue := st.currentValue ++ [line] }
    else st

/-- Embedding of `Dotenv.parseEnvFile`: split the content on newlines, run
the stateful loop, then save the last pending key. -/
def parseEnvFile (js : Js) (coerce : Bool) (content : Chars) : List (Chars × JSValue) :=
  let lines := jsSplit '\n' content
  let st := lines.foldl (processLine js coerce) initState
  saveCurrent js coerce st.envVars st.currentKey st.currentValue st.wasMultiline

/-- One event received by the Logger collaborator.  The source also passes
a structured context object on error events; only the message decides the
claims below, so the model carries the message. -/
inductive LogEvent where
  | info (message : Chars)
  | error (message : Chars)
deriving DecidableEq

/-- The external file-reading collaborator (`fs.readFile`): full text
content, or a read error carrying its message. -/
abbrev Fs := Chars → Except Chars Chars

/-- The observable state of one loading session: the process environment
(string-valued), the instance's `parsedValues`, the log events emitted so
far, and — as instrumentation for the abort-ordering claims — the sequence
of paths handed to the file reader. -/
structure DState where
  env : List (Chars × Chars)
  parsedValues : List (Chars × JSValue)
  logs : List LogEvent
  reads : List Chars

/-- The info message `Dotenv.load` logs before reading a file. -/
def loadingMsg (filepath : Chars) : Chars :=
  "Loading environment variables from ".toList ++ filepath

/-- The error message `Dotenv.load` logs when a read fails. -/
def loadFailMsg (filepath err : Chars) : Chars :=
  "Failed to load environment variables from ".toList ++ filepath ++ ": ".toList ++ err

/-- The info message logged before loading profile files. -/
def profilesMsg (profiles : List Chars) : Chars :=
  "Loading profiles: PROFILES=".toList ++ jsJoin [','] profiles

/-- The info message logged before schema validation. -/
def validatingMsg : Chars :=
  "Validating environment variables".toList

/-- Embedding of `Dotenv.load` for one file: log the info message, read the
file, and either merge the parsed entries into `process.env` (stringified)
and `parsedValues` (as parsed), or log the failure on the error channel and
rethrow.  The source interleaves the two stores in one loop over
`Object.entries`; since they are distinct stores the final state equals two
separate entry applications. -/
def loadFile (js : Js) (coerce : Bool) (fs : Fs) (st : DState) (filepath : Chars) :
    DState × Except Chars Unit :=
  let st1 := { st with logs := st.logs ++ [LogEvent.info (loadingMsg filepath)],
                       reads := st.reads ++ [filepath] }
  match fs filepath with
  | .ok content =>
    let envVars := parseEnvFile js coerce content
    ({ st1 with env := applyEntries st1.env (envVars.map (fun (p : Chars × JSValue) => (p.1, jsString p.2))),
                parsedValues := applyEntries st1.parsedValues envVars }, .ok ())
  | .error e =>
    ({ st1 with logs := st1.logs ++ [LogEvent.error (loadFailMsg filepath e)] }, .error e)

/-- Sequential loading of a list of files, stopping at the first failure
(each `await this.load(...)` in the source rethrows). -/
def loadAll (js : Js) (coerce : Bool) (fs : Fs) (st : DState) :
    List Chars → DState × Except Chars Unit
  | [] => (st, .ok ())
  | p :: rest =>
    match loadFile js coerce fs st p with
    | (st', .ok _) => loadAll js coerce fs st' rest
    | (st', .error e) => (st', .error e)

/-- The profile list derived from the `PROFILES` selector value: split on
commas, trim each entry, keep the non-empty ones in order. -/
def profilesOf (v : Chars) : List Chars :=
  ((jsSplit ',' v).map jsTrim).filter (fun p => p.length > 0)

/-- One field-level issue of a Zod validation error. -/
structure ZodIssue where
  path : List Chars
  message : Chars
deriving DecidableEq

/-- The structured validation error returned by the Schema Validator
collaborator: an overall message plus the list of issues. -/
structure ZodError where
  message : Chars
  issues : List ZodIssue
deriving DecidableEq

/-- Embedding of `toPrettyZodErrors` (`src/zodUtils.ts`): one
`<path>: <message>` line per issue, the path components joined with `.`. -/
def toPrettyZodErrors (e : ZodError) : List Chars :=
  e.issues.map (fun issue => jsJoin ['.'] issue.path ++ ": ".toList ++ issue.message)

/-- Embedding of `toPrettyZodError` (`src/zodUtils.ts`). -/
def toPrettyZodError (e : ZodError) : Chars :=
  "Zod validation error: ".toList ++ e.message ++ ['\n'] ++
    jsJoin ['\n'] (toPrettyZodErrors e)

/-- The validation-failure message format as the specification words it
(`"Validation error: " + one "<path>: <message>" line per issue`).  This
definition is written from the specification, not from the source, for
comparison against `toPrettyZodError`. -/
def specValidationMessage (e : ZodError) : Chars :=
  "Validation error: ".toList ++ jsJoin ['\n'] (toPrettyZodErrors e)

/-- The Schema Validator collaborator (`schema.safeParse`), abstract as in
§6 of the specification: it receives a key/value mapping and returns a
typed result or a structured error. -/
abbrev Validator (α : Type) := List (Chars × JSValue) → Except ZodError α

/-- The data `Dotenv.get` hands to the validator: `parsedValues` when
coercion is enabled, otherwise `process.env` (whose values are strings). -/
def validationInput (coerce : Bool) (st : DState) : List (Chars × JSValue) :=
  if coerce then st.parsedValues
  else st.env.map (fun (p : Chars × Chars) => (p.1, JSValue.str p.2))

/-- Embedding of `Dotenv.get`: validate the selected data; on failure log
the pretty-printed error on the error channel and throw an `Error` carrying
the same message. -/
def get {α : Type} (coerce : Bool) (V : Validator α) (st : DState) :
    DState × Except Chars α :=
  let envData := validationInput coerce st
  match V envData with
  | .ok r => (st, .ok r)
  | .error e =>
    ({ st with logs := st.logs ++ [LogEvent.error (toPrettyZodError e)] },
     .error (toPrettyZodError e))

/-- The schema step at the end of `Dotenv.initialize`: when a schema is
supplied, log the info message and run `get` (discarding its value). -/
def runSchemaPhase {α : Type} (coerce : Bool) (schema : Option (Validator α))
    (st : DState) : DState × Except Chars Unit :=
  match schema with
  | none => (st, .ok ())
  | some V =>
    let st1 := { st with logs := st.logs ++ [LogEvent.info validatingMsg] }
    match get coerce V st1 with
    | (st2, .ok _) => (st2, .ok ())
    | (st2, .error e) => (st2, .error e)

/-- The second half of `Dotenv.initialize`: read the `PROFILES` selector
from the process environment, load `.env.<profile>` for each listed
profile in order, then run the schema step; a failure propagates. -/
def profileAndSchemaPhase {α : Type} (js : Js) (coerce : Bool) (fs : Fs)
    (schema : Option (Validator α)) (st1 : DState) : DState × Except Chars Unit :=
  let profiles := (lookupVal st1.env "PROFILES".toList).map profilesOf
  let step2 := match profiles with
    | some ps =>
      if ps.length > 0 then
        let st2 := { st1 with logs := st1.logs ++ [LogEvent.info (profilesMsg ps)] }
        loadAll js coerce fs st2 (ps.map (fun p => ".env.".toList ++ p))
      else (st1, .ok ())
    | none => (st1, .ok ())
  match step2 with
  | (st3, .error e) => (st3, .error e)
  | (st3, .ok _) => runSchemaPhase coerce schema st3

/-- Embedding of `Dotenv.initialize`: load the explicit file paths in
order, then read the `PROFILES` selector from the process environment and
load `.env.<profile>` for each listed profile in order, then run the schema
step.  A failure at any point propagates immediately.  (`filepath ?? ".env"`
in the source is a defensive default that cannot trigger for a `string[]`,
so paths are used as given.) -/
def initEnv {α : Type} (js : Js) (coerce : Bool) (fs : Fs)
    (filepaths : Option (List Chars)) (schema : Option (Validator α))
    (st : DState) : DState × Except Chars Unit :=
  let step1 := match filepaths with
    | some ps => loadAll js coerce fs st ps
    | none => (st, .ok ())
  match step1 with
  | (st1, .error e) => (st1, .error e)
  | (st1, .ok _) => profileAndSchemaPhase js coerce fs schema st1

/-- The value file `p` assigns to key `K` (through the file reader and the
parser), if the file is readable and defines `K`. -/
def fileValue (js : Js) (coerce : Bool) (fs : Fs) (p K : Chars) : Option JSValue :=
  match fs p with
  | .ok c => lookupVal (parseEnvFile js coerce c) K
  | .error _ => none

/-- Whether file `p` defines key `K`. -/
def fileDefines (js : Js) (coerce : Bool) (fs : Fs) (p K : Chars) : Bool :=
  (fileValue js coerce fs p K).isSome

/-- The value assigned to `K` by the most recently loaded file of the
sequence `ps` that defines `K` (the first file of the reversed sequence
that defines it), if any. -/
def lastFileValue (js : Js) (coerce : Bool) (fs : Fs) (ps : List Chars) (K : Chars) :
    Option JSValue :=
  match ps.reverse.find? (fun p => fileDefines js coerce fs p K) with
  | some p => fileValue js coerce fs p K
  | none => none

/-- A sample structured validation error used in closed statements. -/
def sampleZodError : ZodError :=
  ⟨"m".toList, [⟨["A".toList], "Required".toList⟩]⟩

/-- A `Js` runtime whose JSON parser accepts exactly the text
`{"a":1}`, used to instantiate closed statements about the JSON branch. -/
def jsSample : Js :=
  ⟨fun s => if s = "\x7b\"a\":1\x7d".toList
            then some (.obj [("a".toList, .num ⟨1, 0⟩)]) else none⟩

/-- The empty loading-session state. -/
def emptyState : DState := ⟨[], [], [], []⟩

/-- A two-file filesystem used in closed statements: `fileA` binds `K=1`,
`fileB` binds `K=2`, everything else fails to read. -/
def twoFileFs : Fs := fun p =>
  if p = "fileA".toList then Except.ok "K=1".toList
  else if p = "fileB".toList then Except.ok "K=2".toList
  else Except.error "missing".toList

end Dotenv

section ScratchTests
open Dotenv
example : jsTrim "  ab ".toList = "ab".toList := by decide
example : jsSplit ',' "a,b".toList = ["a".toList, "b".toList] := by decide
example : jsSplit ',' "".toList = ["".toList] := by decide
example : jsNumberOpt "3000".toList = some ⟨3000, 0⟩ := by decide
example : jsNumberOpt "1.5".toList = some ⟨15, 1⟩ := by decide
example : jsNumberOpt "-2.50".toList = some ⟨-25, 1⟩ := by decide
example : jsNumberOpt "1.23e-4".toList = some ⟨123, 6⟩ := by decide
example : jsNumberOpt "5.e2".toList = some ⟨500, 0⟩ := by decide
example : jsNumberOpt "not_a_number".toList = none := by decide
example : jsNumberOpt "".toList = some ⟨0, 0⟩ := by decide
example : jsNumberOpt "\x7ba: \x7d".toList = none := by decide
example : jsNumToChars ⟨3000, 0⟩ = "3000".toList := by decide
example : jsNumToChars ⟨25, 1⟩ = "2.5".toList := by decide
example : jsNumToChars ⟨-25, 1⟩ = "-2.5".toList := by decide
example : jsNumToChars ⟨5, 2⟩ = "0.05".toList := by decide
example : jsToLower "TRUE".toList = "true".toList := by decide
example : jsEndsWith "ab \"\"\"".toList "\"\"\"".toList = true := by decide
example : jsIndexOf "A\\=b".toList '=' = some 2 := by decide
example : intToChars 3000 = "3000".toList := by decide
example : intToChars (-5) = "-5".toList := by decide
example : jsJoin ",".toList ["a".toList, "b".toList] = "a,b".toList := by decide

-- C2 trace: multiline block keeps a trailing newline from the closing line
example : parseEnvFile jsNone false "MSG=\"\"\"\nline one\nline two\n\"\"\"".toList
    = [("MSG".toList, .str "line one\nline two\n".toList)] := rfl

-- C1 trace: a '#' line inside a block is dropped
example : parseEnvFile jsNone false "MSG=\"\"\"\n# Welcome to Our Application\n\"\"\"".toList
    = [("MSG".toList, .str "".toList)] := rfl

-- C6 trace: an escaped '=' still starts a key
example : parseEnvFile jsNone false "A\\=b".toList
    = [("A\\".toList, .str "b".toList)] := rfl

-- truthiness traces: an empty-string pending key (line '=a') is falsy in
-- JavaScript and never saved, and after '="""' every line is dropped and
-- block mode never exits, so nothing at all is emitted
example : parseEnvFile jsNone false "=a\nB=c".toList
    = [("B".toList, .str "c".toList)] := rfl
example : parseEnvFile jsNone false "=\"\"\"\n\"\"\"\nB=c".toList = [] := rfl

-- C7 trace: trailing space after the closing marker leaves a stray quote
example : parseEnvFile jsNone false "K=\"\"\"\nabc\n\"\"\" ".toList
    = [("K".toList, .str "abc\n\"".toList)] := rfl

-- simple value and coercion traces
example : parseEnvFile jsNone false "KEY=value".toList
    = [("KEY".toList, .str "value".toList)] := rfl
example : coerceValue jsNone "3000".toList = .num ⟨3000, 0⟩ := rfl
example : coerceValue jsNone "TRUE".toList = .bool true := rfl
example : coerceValue jsNone "False".toList = .bool false := rfl
example : coerceValue jsNone "NULL".toList = .null := rfl
example : coerceValue jsNone "hello".toList = .str "hello".toList := rfl
example : coerceValue jsNone "\x7ba: \x7d".toList = .str "\x7ba: \x7d".toList := rfl
example : coerceValue ⟨fun s => if s = "[1]".toList then some (.arr [.num ⟨1, 0⟩]) else none⟩
    "[1]".toList = .arr [.num ⟨1, 0⟩] := rfl
end ScratchTests

/-! ## Store lemmas -/

namespace Dotenv

theorem lookupVal_append {α : Type} (m₁ m₂ : List (Chars × α)) (k : Chars) :
    lookupVal (m₁ ++ m₂) k = (lookupVal m₁ k).or (lookupVal m₂ k) := by
  induction m₁ with
  | nil => simp [lookupVal]
  | cons p m₁ ih =>
    by_cases h : p.1 = k
    · simp [lookupVal, h]
    · simp [lookupVal, h, ih]

theorem setEntry_cons_of_ne {α : Type} (a : Chars × α) (m : List (Chars × α))
    (k : Chars) (v : α) (h : a.1 ≠ k) :
    setEntry (a :: m) k v = a :: setEntry m k v := by
  by_cases hm : m.any (fun p => p.1 = k)
  · simp [setEntry, List.any_cons, h, hm]
  · simp [setEntry, List.any_cons, h, hm]

theorem lookupVal_map_setIf {α : Type} (m : List (Chars × α)) (k k' : Chars) (v : α)
    (h : k ≠ k') :
    lookupVal (m.map (fun p => if p.1 = k then (k, v) else p)) k' = lookupVal m k' := by
  induction m with
  | nil => rfl
  | cons a m ih =>
    by_cases ha : a.1 = k
    · have hak : a.1 ≠ k' := by rw [ha]; exact h
      simp [List.map_cons, ha, lookupVal, h, hak, ih]
    · simp [List.map_cons, ha, lookupVal, ih]

theorem lookupVal_map_set_self {α : Type} (m : List (Chars × α)) (k : Chars) (v : α)
    (h : m.any (fun p => p.1 = k) = true) :
    lookupVal (m.map (fun p => if p.1 = k then (k, v) else p)) k = some v := by
  induction m with
  | nil => simp at h
  | cons a m ih =>
    by_cases ha : a.1 = k
    · simp [List.map_cons, ha, lookupVal]
    · simp only [List.any_cons, Bool.or_eq_true, decide_eq_true_eq] at h
      rcases h with h | h
      · exact absurd h ha
      · simp [List.map_cons, ha, lookupVal, ih h]

theorem lookupVal_eq_none_of_forall {α : Type} (m : List (Chars × α)) (k : Chars)
    (h : ∀ p ∈ m, p.1 ≠ k) : lookupVal m k = none := by
  induction m with
  | nil => rfl
  | cons a m ih =>
    simp [lookupVal, h a (by simp), ih (fun p hp => h p (by simp [hp]))]

theorem lookupVal_setEntry {α : Type} (m : List (Chars × α)) (k k' : Chars) (v : α) :
    lookupVal (setEntry m k v) k' = if k = k' then some v else lookupVal m k' := by
  by_cases hm : m.any (fun p => p.1 = k)
  · by_cases hk : k = k'
    · subst hk
      simp [setEntry, hm, lookupVal_map_set_self m k v hm]
    · simp [setEntry, hm, hk, lookupVal_map_setIf m k k' v hk]
  · have hnone : lookupVal m k = none := by
      apply lookupVal_eq_none_of_forall
      intro p hp
      have := List.any_eq_false.mp (Bool.eq_false_iff.mpr hm) p hp
      simpa using this
    by_cases hk : k = k'
    · subst hk
      simp [setEntry, hm, lookupVal_append, hnone, lookupVal]
    · simp [setEntry, hm, lookupVal_append, lookupVal, hk, Option.or_none]

theorem lookupLast_nil {α : Type} (k : Chars) :
    lookupLast ([] : List (Chars × α)) k = none := rfl

theorem lookupLast_cons {α : Type} (p : Chars × α) (es : List (Chars × α)) (k : Chars) :
    lookupLast (p :: es) k
      = (lookupLast es k).or (if p.1 = k then some p.2 else none) := by
  by_cases h : p.1 = k
  · simp [lookupLast, List.reverse_cons, lookupVal_append, lookupVal, h]
  · simp [lookupLast, List.reverse_cons, lookupVal_append, lookupVal, h]

theorem lookupLast_eq_none_iff {α : Type} (m : List (Chars × α)) (k : Chars) :
    lookupLast m k = none ↔ lookupVal m k = none := by
  induction m with
  | nil => simp [lookupLast, lookupVal]
  | cons p m ih =>
    by_cases h : p.1 = k
    · simp [lookupLast_cons, lookupVal, h, Option.or_eq_none]
    · simp [lookupLast_cons, lookupVal, h, Option.or_eq_none, ih]

theorem lookupVal_applyEntries {α : Type} (es : List (Chars × α)) :
    ∀ (m : List (Chars × α)) (k : Chars),
      lookupVal (applyEntries m es) k = (lookupLast es k).or (lookupVal m k) := by
  induction es with
  | nil => intro m k; simp [applyEntries, lookupLast, lookupVal]
  | cons p es ih =>
    intro m k
    have hstep : applyEntries m (p :: es) = applyEntries (setEntry m p.1 p.2) es := rfl
    rw [hstep, ih, lookupLast_cons, lookupVal_setEntry]
    by_cases h : p.1 = k
    · simp [h, Option.or_assoc]
    · simp [h, Option.or_assoc]

theorem keysOf_setEntry {α : Type} (m : List (Chars × α)) (k : Chars) (v : α) :
    keysOf (setEntry m k v)
      = if m.any (fun p => p.1 = k) then keysOf m else keysOf m ++ [k] := by
  by_cases hm : m.any (fun p => p.1 = k)
  · have : ∀ p : Chars × α, ((if p.1 = k then (k, v) else p).1) = p.1 := by
      intro p
      by_cases h : p.1 = k
      · simp [h]
      · simp [h]
    simp [setEntry, hm, keysOf, List.map_map, Function.comp_def, this]
  · simp [setEntry, hm, keysOf]

theorem nodup_setEntry {α : Type} (m : List (Chars × α)) (k : Chars) (v : α)
    (h : (keysOf m).Nodup) : (keysOf (setEntry m k v)).Nodup := by
  rw [keysOf_setEntry]
  by_cases hm : m.any (fun p => p.1 = k)
  · simpa [hm] using h
  · have hk : k ∉ keysOf m := by
      intro hmem
      rcases List.mem_map.mp hmem with ⟨p, hp, hpk⟩
      have := List.any_eq_false.mp (Bool.eq_false_iff.mpr hm) p hp
      simp [hpk] at this
    simp only [hm, if_false, Bool.false_eq_true]
    rw [List.nodup_append]
    refine ⟨h, List.nodup_singleton k, ?_⟩
    intro a ha hb
    rw [List.mem_singleton] at hb
    subst hb
    exact hk ha

theorem lookupLast_eq_lookupVal_of_nodup {α : Type} (m : List (Chars × α)) (k : Chars)
    (h : (keysOf m).Nodup) : lookupLast m k = lookupVal m k := by
  induction m with
  | nil => rfl
  | cons p m ih =>
    have hnd : (keysOf m).Nodup := (List.nodup_cons.mp h).2
    have hhead : p.1 ∉ keysOf m := (List.nodup_cons.mp h).1
    by_cases hk : p.1 = k
    · have : lookupVal m k = none := by
        apply lookupVal_eq_none_of_forall
        intro q hq hqk
        exact hhead (hk ▸ hqk ▸ List.mem_map_of_mem Prod.fst hq)
      have hlast : lookupLast m k = none := (lookupLast_eq_none_iff m k).mpr this
      simp [lookupLast_cons, lookupVal, hk, hlast]
    · simp [lookupLast_cons, lookupVal, hk, ih hnd, Option.or_none]

theorem lookupVal_mapValues {α β : Type} (m : List (Chars × α)) (f : α → β) (k : Chars) :
    lookupVal (m.map (fun p => (p.1, f p.2))) k = (lookupVal m k).map f := by
  induction m with
  | nil => rfl
  | cons p m ih =>
    by_cases h : p.1 = k
    · simp [lookupVal, h]
    · simp [lookupVal, h, ih]

theorem lookupLast_mapValues {α β : Type} (m : List (Chars × α)) (f : α → β) (k : Chars) :
    lookupLast (m.map (fun p => (p.1, f p.2))) k = (lookupLast m k).map f := by
  have hrev : (m.map (fun p => (p.1, f p.2))).reverse = m.reverse.map (fun p => (p.1, f p.2)) := by
    simp [List.map_reverse]
  unfold lookupLast
  rw [hrev]
  exact lookupVal_mapValues m.reverse f k

theorem nodup_saveCurrent (js : Js) (coerce : Bool) (envVars : List (Chars × JSValue))
    (ck : Option Chars) (cv : List Chars) (wm : Bool)
    (h : (keysOf envVars).Nodup) :
    (keysOf (saveCurrent js coerce envVars ck cv wm)).Nodup := by
  cases ck with
  | none => exact h
  | some key =>
    simp only [saveCurrent]
    split
    · exact nodup_setEntry _ _ _ h
    · exact h

theorem nodup_processLine (js : Js) (coerce : Bool) (st : ParseState) (line : Chars)
    (h : (keysOf st.envVars).Nodup) :
    (keysOf (processLine js coerce st line).envVars).Nodup := by
  simp only [processLine]
  split_ifs
  all_goals
    first
      | exact h
      | exact nodup_saveCurrent js coerce st.envVars st.currentKey st.currentValue st.wasMultiline h

theorem nodup_foldl_processLine (js : Js) (coerce : Bool) :
    ∀ (lines : List Chars) (st : ParseState),
      (keysOf st.envVars).Nodup →
      (keysOf ((lines.foldl (processLine js coerce) st)).envVars).Nodup := by
  intro lines
  induction lines with
  | nil => intro st h; exact h
  | cons l lines ih => intro st h; exact ih _ (nodup_processLine js coerce st l h)

theorem nodup_parseEnvFile (js : Js) (coerce : Bool) (content : Chars) :
    (keysOf (parseEnvFile js coerce content)).Nodup := by
  unfold parseEnvFile
  apply nodup_saveCurrent
  apply nodup_foldl_processLine
  simp [initState, keysOf]

theorem lookupLast_parseEnvFile (js : Js) (coerce : Bool) (content : Chars) (k : Chars) :
    lookupLast (parseEnvFile js coerce content) k
      = lookupVal (parseEnvFile js coerce content) k :=
  lookupLast_eq_lookupVal_of_nodup _ _ (nodup_parseEnvFile js coerce content)

theorem all_ws_of_jsTrim_eq_nil (l : Chars) (h : jsTrim l = []) :
    ∀ c ∈ l, c.isWhitespace = true := by
  unfold jsTrim at h
  rw [List.reverse_eq_nil_iff, List.dropWhile_eq_nil_iff] at h
  intro c hc
  have hsplit := List.takeWhile_append_dropWhile (p := Char.isWhitespace) (l := l)
  rw [← hsplit] at hc
  rcases List.mem_append.mp hc with hc | hc
  · exact List.mem_takeWhile_imp hc
  · exact h c (List.mem_reverse.mpr hc)

theorem mem_of_findIdx?_eq_some {α : Type} (p : α → Bool) :
    ∀ (l : List α) (s i : Nat), List.findIdx? p l s = some i → ∃ x ∈ l, p x = true := by
  intro l
  induction l with
  | nil => intro s i h; simp [List.findIdx?] at h
  | cons a l ih =>
    intro s i h
    rw [List.findIdx?_cons] at h
    by_cases hp : p a = true
    · exact ⟨a, by simp, hp⟩
    · simp only [hp, if_false, Bool.false_eq_true] at h
      rcases ih (s + 1) i h with ⟨x, hx, hpx⟩
      exact ⟨x, by simp [hx], hpx⟩

theorem jsTrim_ne_nil_of_jsIndexOf (line : Chars) (i : Nat)
    (h : jsIndexOf line '=' = some i) : jsTrim line ≠ [] := by
  intro hnil
  rcases mem_of_findIdx?_eq_some _ line 0 i h with ⟨x, hx, hpx⟩
  have hws := all_ws_of_jsTrim_eq_nil line hnil x hx
  have hxeq : x = '=' := by simpa using hpx
  subst hxeq
  exact absurd hws (by decide)

theorem loadFile_ok (js : Js) (coerce : Bool) (fs : Fs) (st : DState) (p c : Chars)
    (hc : fs p = Except.ok c) :
    loadFile js coerce fs st p =
      ({ env := applyEntries st.env
           ((parseEnvFile js coerce c).map (fun q => (q.1, jsString q.2))),
         parsedValues := applyEntries st.parsedValues (parseEnvFile js coerce c),
         logs := st.logs ++ [LogEvent.info (loadingMsg p)],
         reads := st.reads ++ [p] }, Except.ok ()) := by
  simp [loadFile, hc]

theorem loadFile_error (js : Js) (coerce : Bool) (fs : Fs) (st : DState) (p e : Chars)
    (hc : fs p = Except.error e) :
    loadFile js coerce fs st p =
      ({ st with logs := st.logs ++ [LogEvent.info (loadingMsg p), LogEvent.error (loadFailMsg p e)],
                 reads := st.reads ++ [p] }, Except.error e) := by
  simp [loadFile, hc]

theorem loadAll_cons_ok (js : Js) (coerce : Bool) (fs : Fs) (st : DState)
    (p : Chars) (ps : List Chars) (c : Chars) (hc : fs p = Except.ok c) :
    loadAll js coerce fs st (p :: ps)
      = loadAll js coerce fs (loadFile js coerce fs st p).1 ps := by
  rw [loadFile_ok js coerce fs st p c hc]
  conv_lhs => rw [loadAll, loadFile_ok js coerce fs st p c hc]

theorem loadAll_ok_state (js : Js) (coerce : Bool) (fs : Fs) :
    ∀ (ps : List Chars) (st : DState),
      (∀ q ∈ ps, ∃ c, fs q = Except.ok c) →
      (loadAll js coerce fs st ps).2 = Except.ok () ∧
      (loadAll js coerce fs st ps).1.reads = st.reads ++ ps := by
  intro ps
  induction ps with
  | nil => intro st _; exact ⟨rfl, by simp [loadAll]⟩
  | cons p ps ih =>
    intro st h
    obtain ⟨c, hc⟩ := h p (List.mem_cons_self p ps)
    rw [loadAll_cons_ok js coerce fs st p ps c hc]
    obtain ⟨h1, h2⟩ := ih (loadFile js coerce fs st p).1
      (fun q hq => h q (List.mem_cons_of_mem p hq))
    refine ⟨h1, ?_⟩
    rw [h2, loadFile_ok js coerce fs st p c hc, List.append_assoc]
    rfl

theorem lastFileValue_nil (js : Js) (coerce : Bool) (fs : Fs) (K : Chars) :
    lastFileValue js coerce fs [] K = none := rfl

theorem lastFileValue_cons (js : Js) (coerce : Bool) (fs : Fs) (p : Chars)
    (ps : List Chars) (K : Chars) :
    lastFileValue js coerce fs (p :: ps) K
      = (lastFileValue js coerce fs ps K).or (fileValue js coerce fs p K) := by
  unfold lastFileValue
  rw [List.reverse_cons, List.find?_append]
  cases hfind : ps.reverse.find? (fun q => fileDefines js coerce fs q K) with
  | some q =>
    have hq := List.find?_some hfind
    simp only at hq
    have hq' : (fileValue js coerce fs q K).isSome = true := hq
    rcases Option.isSome_iff_exists.mp hq' with ⟨w, hw⟩
    simp [hw]
  | none =>
    cases hp : fileDefines js coerce fs p K with
    | true =>
      have : (fileValue js coerce fs p K).isSome = true := hp
      rcases Option.isSome_iff_exists.mp this with ⟨w, hw⟩
      simp [List.find?, hp, hw]
    | false =>
      have : fileValue js coerce fs p K = none := by
        cases hfv : fileValue js coerce fs p K with
        | none => rfl
        | some w => rw [fileDefines, hfv] at hp; simp at hp
      simp [List.find?, hp, this]

theorem loadAll_abort (js : Js) (coerce : Bool) (fs : Fs) :
    ∀ (pre : List Chars) (p : Chars) (post : List Chars) (e : Chars) (st : DState),
      (∀ q ∈ pre, ∃ c, fs q = Except.ok c) →
      fs p = Except.error e →
      loadAll js coerce fs st (pre ++ p :: post)
        = ({ (loadAll js coerce fs st pre).1 with
              reads := (loadAll js coerce fs st pre).1.reads ++ [p],
              logs := (loadAll js coerce fs st pre).1.logs
                        ++ [LogEvent.info (loadingMsg p), LogEvent.error (loadFailMsg p e)] },
           Except.error e) := by
  intro pre
  induction pre with
  | nil =>
    intro p post e st _ hp
    have herr := loadFile_error js coerce fs st p e hp
    simp [loadAll, herr]
  | cons q pre ih =>
    intro p post e st h hp
    obtain ⟨c, hc⟩ := h q (List.mem_cons_self q pre)
    have hstep : (q :: pre) ++ p :: post = q :: (pre ++ p :: post) := rfl
    rw [hstep, loadAll_cons_ok js coerce fs st q _ c hc,
        loadAll_cons_ok js coerce fs st q pre c hc]
    exact ih p post e (loadFile js coerce fs st q).1
      (fun r hr => h r (List.mem_cons_of_mem q hr)) hp

/-! ## Claim theorems -/

/-- C1: The claim states that a line whose trimmed text starts with `#`
between the markers of a multi-line block is kept verbatim as a line of the
value.  The code does the opposite: the comment check at `Dotenv.ts:105`
runs before the multi-line check, so the line is dropped.  At the failing
input `MSG="""` / `# Welcome to Our Application` / `"""` (the shape of the
repository's own example `.env`, whose triple-quoted markdown block starts
with a `#` heading) the parser yields the empty value, not a value
retaining the comment line. -/
theorem comment_inside_block_dropped :
    parseEnvFile jsNone false
        "MSG=\"\"\"\n# Welcome to Our Application\n\"\"\"".toList
      = [("MSG".toList, JSValue.str [])]
    ∧ ([] : Chars) ≠ "# Welcome to Our Application\n".toList :=
  ⟨rfl, by decide⟩

/-- C2 (counterexample): parsing `MSG="""` / `line one` / `line two` /
`"""` does not give `"line one\nline two"`.  The closing-marker line is
emptied but stays in the joined value lines, so the value carries a
trailing newline: `"line one\nline two\n"`. -/
theorem multiline_trailing_newline_counterexample :
    parseEnvFile jsNone false "MSG=\"\"\"\nline one\nline two\n\"\"\"".toList
      = [("MSG".toList, JSValue.str "line one\nline two\n".toList)]
    ∧ "line one\nline two\n".toList ≠ "line one\nline two".toList :=
  ⟨rfl, by decide⟩

/-- C2 (amended): parsing the four-line input binds `MSG` to exactly
`"line one\nline two\n"`: the closing triple-quote marker is removed and
content and line breaks between the markers are preserved exactly, with
`\"` unescaped to `"`, but the emptied closing-marker line contributes one
trailing newline. -/
theorem multiline_block_value :
    parseEnvFile jsNone false "MSG=\"\"\"\nline one\nline two\n\"\"\"".toList
      = [("MSG".toList, JSValue.str "line one\nline two\n".toList)]
    ∧ parseEnvFile jsNone false "MSG=\"\"\"\nsay \\\"hi\\\"\n\"\"\"".toList
      = [("MSG".toList, JSValue.str "say \"hi\"\n".toList)] :=
  ⟨rfl, rfl⟩

/-- C6 (counterexample): the parser performs no escape detection on `=`.
The one-line input `A\=b`, whose only `=` is preceded by a backslash,
still starts a new key (`A\`), contradicting the claim that an escaped `=`
does not start a new key. -/
theorem escaped_equals_counterexample :
    parseEnvFile jsNone false "A\\=b".toList
      = [("A\\".toList, JSValue.str "b".toList)]
    ∧ [("A\\".toList, JSValue.str "b".toList)] ≠ ([] : List (Chars × JSValue)) :=
  ⟨rfl, List.cons_ne_nil _ _⟩

/-- C6 (amended): outside a multi-line block, every non-comment line that
contains `=` anywhere (the code checks `indexOf("=")` with no escape
handling) starts a new key: the pending key, if truthy (non-empty — the
source's `currentKey && ...` guard uses JavaScript truthiness, under which
the empty string is falsy), is first finalized and emitted into the result
mapping, while an empty-string pending key is discarded; the new current
key is the substring of the line before the first `=`, trimmed. -/
theorem line_with_equals_starts_key (js : Js) (coerce : Bool) (st : ParseState)
    (line : Chars) (i : Nat)
    (hcomment : jsStartsWith (jsTrim line) ['#'] = false)
    (heq : jsIndexOf line '=' = some i)
    (hml : st.inMultiline = false) :
    (processLine js coerce st line).currentKey = some (jsTrim (line.take i))
    ∧ (processLine js coerce st line).envVars
        = saveCurrent js coerce st.envVars st.currentKey st.currentValue st.wasMultiline
    ∧ (∀ k, st.currentKey = some k → k ≠ [] → st.currentValue.length > 0 →
        lookupVal (processLine js coerce st line).envVars k
          = some (finalizeValue js coerce st.currentValue st.wasMultiline))
    ∧ (st.currentKey = some [] →
        (processLine js coerce st line).envVars = st.envVars) := by
  have hnn : jsTrim line ≠ [] := jsTrim_ne_nil_of_jsIndexOf line i heq
  have hd : decide (jsTrim line = []) = false := by simp [hnn]
  have hmain : ∀ k, st.currentKey = some k → k ≠ [] → st.currentValue.length > 0 →
      lookupVal (saveCurrent js coerce st.envVars st.currentKey st.currentValue st.wasMultiline) k
        = some (finalizeValue js coerce st.currentValue st.wasMultiline) := by
    intro k hk hkne hlen
    rw [hk]
    simp only [saveCurrent]
    rw [if_pos ⟨hkne, hlen⟩, lookupVal_setEntry]
    simp
  have hempty : st.currentKey = some [] →
      saveCurrent js coerce st.envVars st.currentKey st.currentValue st.wasMultiline
        = st.envVars := by
    intro hk
    rw [hk]
    simp [saveCurrent]
  simp only [processLine, hcomment, heq, hml, hd]
  simp only [Bool.false_eq_true, if_false, Bool.false_and, Bool.not_false,
             Option.isSome_some, Bool.true_and, Bool.and_true, Option.getD_some,
             if_true]
  split_ifs
  all_goals exact ⟨rfl, rfl, hmain, hempty⟩

/-- C6 (witness). -/
theorem line_with_equals_starts_key_witness :
    (processLine jsNone false
        ⟨[], some "P".toList, ["1".toList], false, false⟩ "Q=2".toList).currentKey
      = some "Q".toList
    ∧ lookupVal (processLine jsNone false
        ⟨[], some "P".toList, ["1".toList], false, false⟩ "Q=2".toList).envVars "P".toList
      = some (JSValue.str "1".toList) := by
  have h := line_with_equals_starts_key jsNone false
      ⟨[], some "P".toList, ["1".toList], false, false⟩ "Q=2".toList 1
      (by decide) (by decide) rfl
  exact ⟨h.1, by rw [h.2.2.1 "P".toList rfl (by decide) (by decide)]; rfl⟩

/-- C7 (counterexample): when whitespace follows the closing triple-quote
marker, the code strips the last three characters of the raw line (which
are `"` `"` and the space), not the marker, leaving a stray `"` in the
value: `K="""` / `abc` / `""" ` yields `"abc\n\""`, neither `"abc\n"` nor
`"abc\n "`. -/
theorem closing_marker_trailing_space_counterexample :
    parseEnvFile jsNone false "K=\"\"\"\nabc\n\"\"\" ".toList
      = [("K".toList, JSValue.str "abc\n\"".toList)]
    ∧ "abc\n\"".toList ≠ "abc\n".toList
    ∧ "abc\n\"".toList ≠ "abc\n ".toList :=
  ⟨rfl, by decide, by decide⟩

/-- C7 (amended): every non-comment line read while inside a multi-line
block whose current key is truthy (the source's `inMultiline && currentKey`
guard uses JavaScript truthiness, so the key must be non-null and
non-empty) is appended unmodified to the current value lines; then, if and
only if the line trimmed ends with the triple double-quote marker, the
last three characters of the raw line are removed from the just-appended
line and block mode exits.  Removing the last three characters equals
stripping exactly the marker only when no whitespace follows the marker on
the line.  With a falsy (empty-string) current key the line is dropped
entirely and the parser state — block mode included — is unchanged.
(Lines whose trimmed text starts with `#` never reach this step, see
C1.) -/
theorem in_block_line_appended (js : Js) (coerce : Bool) (st : ParseState)
    (line : Chars)
    (hcomment : jsStartsWith (jsTrim line) ['#'] = false)
    (hml : st.inMultiline = true) :
    (keyTruthy st.currentKey = true →
      (hasClosingTripleQuotes line = true →
        (processLine js coerce st line).currentValue
            = st.currentValue ++ [line.take (line.length - 3)]
        ∧ (processLine js coerce st line).inMultiline = false)
      ∧ (hasClosingTripleQuotes line = false →
        (processLine js coerce st line).currentValue = st.currentValue ++ [line]
        ∧ (processLine js coerce st line).inMultiline = true)
      ∧ (processLine js coerce st line).envVars = st.envVars)
    ∧ (keyTruthy st.currentKey = false → processLine js coerce st line = st)
    ∧ hasClosingTripleQuotes line = jsEndsWith (jsTrim line) "\"\"\"".toList := by
  have hlast : hasClosingTripleQuotes line = jsEndsWith (jsTrim line) "\"\"\"".toList := rfl
  refine ⟨?_, ?_, hlast⟩
  · intro hkey
    simp only [processLine, hcomment, hml]
    simp only [Bool.not_true, Bool.and_false, Bool.false_eq_true, if_false,
               Bool.true_and, hkey, if_true]
    cases hq : hasClosingTripleQuotes line with
    | true => exact ⟨fun _ => ⟨rfl, rfl⟩, fun hc => by simp at hc, rfl⟩
    | false => exact ⟨fun hc => by simp at hc, fun _ => ⟨rfl, rfl⟩, rfl⟩
  · intro hkey
    simp only [processLine, hcomment, hml]
    simp only [Bool.not_true, Bool.and_false, Bool.false_eq_true, if_false,
               Bool.true_and, hkey]

/-- C7 (witness): with the truthy key `K`, the closing line `""" ` (marker
followed by a space) closes the block but leaves a stray quote; with the
falsy empty-string key the same line is dropped and the block never
closes. -/
theorem in_block_line_appended_witness :
    (processLine jsNone false
        ⟨[], some "K".toList, ["abc".toList], true, true⟩ "\"\"\" ".toList).currentValue
      = ["abc".toList, "\"".toList]
    ∧ (processLine jsNone false
        ⟨[], some "K".toList, ["abc".toList], true, true⟩ "\"\"\" ".toList).inMultiline
      = false
    ∧ processLine jsNone false
        ⟨[], some [], [], true, true⟩ "\"\"\" ".toList
      = ⟨[], some [], [], true, true⟩ := by
  have h := in_block_line_appended jsNone false
      ⟨[], some "K".toList, ["abc".toList], true, true⟩ "\"\"\" ".toList
      (by decide) rfl
  have hE := in_block_line_appended jsNone false
      ⟨[], some [], [], true, true⟩ "\"\"\" ".toList
      (by decide) rfl
  have h1 := (h.1 (by decide)).1 (by decide)
  exact ⟨by rw [h1.1]; decide, h1.2, hE.2.1 (by decide)⟩

theorem option_map_or {α β : Type} (f : α → β) (a b : Option α) :
    (a.or b).map f = (a.map f).or (b.map f) := by
  cases a <;> simp

theorem loadAll_lastWrite (js : Js) (coerce : Bool) (fs : Fs) :
    ∀ (ps : List Chars) (st : DState) (K : Chars),
      (∀ q ∈ ps, ∃ c, fs q = Except.ok c) →
      lookupVal ((loadAll js coerce fs st ps).1).parsedValues K
        = (lastFileValue js coerce fs ps K).or (lookupVal st.parsedValues K)
      ∧ lookupVal ((loadAll js coerce fs st ps).1).env K
        = ((lastFileValue js coerce fs ps K).map jsString).or (lookupVal st.env K) := by
  intro ps
  induction ps with
  | nil =>
    intro st K _
    exact ⟨by simp [loadAll, lastFileValue_nil], by simp [loadAll, lastFileValue_nil]⟩
  | cons p ps ih =>
    intro st K h
    obtain ⟨c, hc⟩ := h p (List.mem_cons_self p ps)
    rw [loadAll_cons_ok js coerce fs st p ps c hc]
    obtain ⟨ih1, ih2⟩ := ih (loadFile js coerce fs st p).1 K
      (fun q hq => h q (List.mem_cons_of_mem p hq))
    have hfv : fileValue js coerce fs p K = lookupVal (parseEnvFile js coerce c) K := by
      simp [fileValue, hc]
    have hparsed : (loadFile js coerce fs st p).1.parsedValues
        = applyEntries st.parsedValues (parseEnvFile js coerce c) := by
      rw [loadFile_ok js coerce fs st p c hc]
    have henv : (loadFile js coerce fs st p).1.env
        = applyEntries st.env
            ((parseEnvFile js coerce c).map (fun q => (q.1, jsString q.2))) := by
      rw [loadFile_ok js coerce fs st p c hc]
    constructor
    · rw [ih1, hparsed, lookupVal_applyEntries, lookupLast_parseEnvFile, ← hfv,
          lastFileValue_cons, Option.or_assoc]
    · rw [ih2, henv, lookupVal_applyEntries, lookupLast_mapValues,
          lookupLast_parseEnvFile, ← hfv, lastFileValue_cons, option_map_or,
          Option.or_assoc]

/-- C3: last-write-wins in the Shared Store.  For every successfully
loaded sequence of files, the value bound to `K` in `parsedValues` equals
the value assigned to `K` by the most recently loaded file defining `K`
(`lastFileValue`), falling back to the prior store; the process
environment holds its stringified image.  In particular, for two files
both defining `K`, loading `A` then `B` yields `K = vB` and loading `B`
then `A` yields `K = vA`. -/
theorem sharedStore_last_write (js : Js) (coerce : Bool) (fs : Fs) :
    (∀ (ps : List Chars) (st : DState) (K : Chars),
      (∀ q ∈ ps, ∃ c, fs q = Except.ok c) →
      lookupVal ((loadAll js coerce fs st ps).1).parsedValues K
        = (lastFileValue js coerce fs ps K).or (lookupVal st.parsedValues K)
      ∧ lookupVal ((loadAll js coerce fs st ps).1).env K
        = ((lastFileValue js coerce fs ps K).map jsString).or (lookupVal st.env K))
    ∧ (∀ (pA pB cA cB K : Chars) (st : DState) (vA vB : JSValue),
        fs pA = Except.ok cA → fs pB = Except.ok cB →
        lookupVal (parseEnvFile js coerce cA) K = some vA →
        lookupVal (parseEnvFile js coerce cB) K = some vB →
        lookupVal ((loadAll js coerce fs st [pA, pB]).1).parsedValues K = some vB
        ∧ lookupVal ((loadAll js coerce fs st [pB, pA]).1).parsedValues K = some vA) := by
  refine ⟨loadAll_lastWrite js coerce fs, ?_⟩
  intro pA pB cA cB K st vA vB hA hB hvA hvB
  have hfa : fileValue js coerce fs pA K = some vA := by simp [fileValue, hA, hvA]
  have hfb : fileValue js coerce fs pB K = some vB := by simp [fileValue, hB, hvB]
  have hok1 : ∀ q ∈ [pA, pB], ∃ c, fs q = Except.ok c := by
    intro q hq
    rcases List.mem_cons.mp hq with rfl | hq
    · exact ⟨cA, hA⟩
    · rcases List.mem_cons.mp hq with rfl | hq
      · exact ⟨cB, hB⟩
      · simp at hq
  have hok2 : ∀ q ∈ [pB, pA], ∃ c, fs q = Except.ok c := by
    intro q hq
    rcases List.mem_cons.mp hq with rfl | hq
    · exact ⟨cB, hB⟩
    · rcases List.mem_cons.mp hq with rfl | hq
      · exact ⟨cA, hA⟩
      · simp at hq
  constructor
  · have h := (loadAll_lastWrite js coerce fs [pA, pB] st K hok1).1
    rw [h, lastFileValue_cons, lastFileValue_cons, lastFileValue_nil, hfa, hfb]
    rfl
  · have h := (loadAll_lastWrite js coerce fs [pB, pA] st K hok2).1
    rw [h, lastFileValue_cons, lastFileValue_cons, lastFileValue_nil, hfa, hfb]
    rfl

/-- C3 (witness): loading `fileA` (`K=1`) then `fileB` (`K=2`) binds `K`
to `"2"`, and the reverse order binds it to `"1"`. -/
theorem sharedStore_last_write_witness :
    lookupVal ((loadAll jsNone false twoFileFs emptyState
        ["fileA".toList, "fileB".toList]).1).parsedValues "K".toList
      = some (JSValue.str "2".toList)
    ∧ lookupVal ((loadAll jsNone false twoFileFs emptyState
        ["fileB".toList, "fileA".toList]).1).parsedValues "K".toList
      = some (JSValue.str "1".toList) := by
  have h := (sharedStore_last_write jsNone false twoFileFs).2
      "fileA".toList "fileB".toList "K=1".toList "K=2".toList "K".toList emptyState
      (JSValue.str "1".toList) (JSValue.str "2".toList) rfl rfl rfl rfl
  exact ⟨h.1, h.2⟩

/-- C4: value coercion.  With coercion enabled: `"3000"` yields the number
`3000` (the canonical `JSNum` with mantissa 3000, not a string);
`true`/`false`/`null` case-insensitively yield the boolean/null values
(stated for any input whose trimmed lower-casing matches and which does
not enter the JSON branch — no such input can, since those words start
with a letter); a trimmed value starting with `{` or `[` is JSON-parsed
and a parse success is returned as the parsed structure; a value matching
none of the checks — JSON branch failed or not taken, no keyword match,
`Number` conversion failing — is returned as the original string
unchanged, including the malformed JSON `{a: }`, which falls through
without any exception (the embedding is total). -/
theorem coerceValue_typing (js : Js) :
    coerceValue js "3000".toList = JSValue.num ⟨3000, 0⟩
    ∧ (∀ s : Chars, jsToLower (jsTrim s) = "true".toList →
        jsStartsWith (jsTrim s) ['\x7b'] = false → jsStartsWith (jsTrim s) ['['] = false →
        coerceValue js s = JSValue.bool true)
    ∧ (∀ s : Chars, jsToLower (jsTrim s) = "false".toList →
        jsStartsWith (jsTrim s) ['\x7b'] = false → jsStartsWith (jsTrim s) ['['] = false →
        coerceValue js s = JSValue.bool false)
    ∧ (∀ s : Chars, jsToLower (jsTrim s) = "null".toList →
        jsStartsWith (jsTrim s) ['\x7b'] = false → jsStartsWith (jsTrim s) ['['] = false →
        coerceValue js s = JSValue.null)
    ∧ (∀ (s : Chars) (j : JSValue),
        (jsStartsWith (jsTrim s) ['\x7b'] = true ∨ jsStartsWith (jsTrim s) ['['] = true) →
        js.jsonParse (jsTrim s) = some j → coerceValue js s = j)
    ∧ (js.jsonParse (jsTrim "\x7ba: \x7d".toList) = none →
        coerceValue js "\x7ba: \x7d".toList = JSValue.str "\x7ba: \x7d".toList)
    ∧ (∀ s : Chars,
        (js.jsonParse (jsTrim s) = none ∨
          (jsStartsWith (jsTrim s) ['\x7b'] = false ∧ jsStartsWith (jsTrim s) ['['] = false)) →
        jsToLower (jsTrim s) ≠ "true".toList →
        jsToLower (jsTrim s) ≠ "false".toList →
        jsToLower (jsTrim s) ≠ "null".toList →
        jsNumberOpt (jsTrim s) = none →
        coerceValue js s = JSValue.str s) := by
  have hfall : ∀ s : Chars,
      (js.jsonParse (jsTrim s) = none ∨
        (jsStartsWith (jsTrim s) ['\x7b'] = false ∧ jsStartsWith (jsTrim s) ['['] = false)) →
      jsToLower (jsTrim s) ≠ "true".toList →
      jsToLower (jsTrim s) ≠ "false".toList →
      jsToLower (jsTrim s) ≠ "null".toList →
      jsNumberOpt (jsTrim s) = none →
      coerceValue js s = JSValue.str s := by
    intro s hj h1 h2 h3 hnum
    have ht : ("true".toList : Chars) = ['t', 'r', 'u', 'e'] := rfl
    have hf : ("false".toList : Chars) = ['f', 'a', 'l', 's', 'e'] := rfl
    have hn : ("null".toList : Chars) = ['n', 'u', 'l', 'l'] := rfl
    rw [ht] at h1
    rw [hf] at h2
    rw [hn] at h3
    simp only [coerceValue]
    cases hb : jsStartsWith (jsTrim s) ['\x7b'] || jsStartsWith (jsTrim s) ['['] with
    | true =>
      have hjn : js.jsonParse (jsTrim s) = none := by
        rcases hj with hj | ⟨hf1, hf2⟩
        · exact hj
        · rw [hf1, hf2] at hb
          simp at hb
      simp [hb, hjn, h1, h2, h3, hnum]
    | false => simp [hb, h1, h2, h3, hnum]
  refine ⟨rfl, ?_, ?_, ?_, ?_, ?_, hfall⟩
  · intro s h1 h2 h3
    simp only [coerceValue]
    simp [h1, h2, h3]
  · intro s h1 h2 h3
    simp only [coerceValue]
    simp [h1, h2, h3]
  · intro s h1 h2 h3
    simp only [coerceValue]
    simp [h1, h2, h3]
  · intro s j hb hj
    simp only [coerceValue]
    rcases hb with hb | hb
    · simp [hb, hj]
    · simp [hb, hj]
  · intro hj
    exact hfall "\x7ba: \x7d".toList (Or.inl hj) (by decide) (by decide) (by decide) (by decide)

/-- C4 (witness). -/
theorem coerceValue_typing_witness :
    coerceValue jsNone "TRUE".toList = JSValue.bool true
    ∧ coerceValue jsNone "False".toList = JSValue.bool false
    ∧ coerceValue jsNone "nUll".toList = JSValue.null
    ∧ coerceValue jsSample "\x7b\"a\":1\x7d".toList
        = JSValue.obj [("a".toList, JSValue.num ⟨1, 0⟩)]
    ∧ coerceValue jsNone "\x7ba: \x7d".toList = JSValue.str "\x7ba: \x7d".toList
    ∧ coerceValue jsNone "hello".toList = JSValue.str "hello".toList := by
  refine ⟨?_, ?_, ?_, ?_, ?_, ?_⟩
  · exact (coerceValue_typing jsNone).2.1 "TRUE".toList (by decide) (by decide) (by decide)
  · exact (coerceValue_typing jsNone).2.2.1 "False".toList (by decide) (by decide) (by decide)
  · exact (coerceValue_typing jsNone).2.2.2.1 "nUll".toList (by decide) (by decide) (by decide)
  · exact (coerceValue_typing jsSample).2.2.2.2.1 "\x7b\"a\":1\x7d".toList
      (JSValue.obj [("a".toList, JSValue.num ⟨1, 0⟩)]) (Or.inl (by decide)) rfl
  · exact (coerceValue_typing jsNone).2.2.2.2.2.1 rfl
  · exact (coerceValue_typing jsNone).2.2.2.2.2.2 "hello".toList (Or.inl rfl)
      (by decide) (by decide) (by decide) (by decide)

/-- C5 (counterexample): the failure message `get` throws and logs is
produced by `toPrettyZodError`, whose prefix is
`"Zod validation error: <error.message>"` followed by the issue lines —
not the claimed `"Validation error: "` prefix.  At a concrete one-issue
error the produced message differs from the claimed format
(`specValidationMessage`) and does not start with `"Validation error: "`.  -/
theorem validation_message_counterexample :
    (get false (fun _ => Except.error sampleZodError : Validator Unit) emptyState).2
      = Except.error (toPrettyZodError sampleZodError)
    ∧ toPrettyZodError sampleZodError = "Zod validation error: m\nA: Required".toList
    ∧ toPrettyZodError sampleZodError ≠ specValidationMessage sampleZodError
    ∧ jsStartsWith (toPrettyZodError sampleZodError) "Validation error: ".toList = false :=
  ⟨rfl, by decide, by decide, by decide⟩

/-- C5 (amended): when the validator rejects, the load fails with an error
whose message is `"Zod validation error: "` followed by the validator
error's own message, a newline, and one `<path>: <message>` line per issue
(path components joined with `.`); the same message is logged on the error
channel, and an `initialize` call that reaches validation fails with it. -/
theorem validation_failure_message {α : Type} (coerce : Bool) (V : Validator α)
    (st : DState) (e : ZodError)
    (h : V (validationInput coerce st) = Except.error e) :
    (get coerce V st).2 = Except.error (toPrettyZodError e)
    ∧ (get coerce V st).1.logs = st.logs ++ [LogEvent.error (toPrettyZodError e)]
    ∧ toPrettyZodError e
        = "Zod validation error: ".toList ++ e.message ++ ['\n'] ++
            jsJoin ['\n'] (e.issues.map
              (fun issue => jsJoin ['.'] issue.path ++ ": ".toList ++ issue.message))
    ∧ (∀ (js : Js) (fs : Fs), lookupVal st.env "PROFILES".toList = none →
        (initEnv js coerce fs none (some V) st).2
          = Except.error (toPrettyZodError e)) := by
  refine ⟨by simp [get, h], by simp [get, h], rfl, ?_⟩
  intro js fs hpr
  have hpr' : lookupVal st.env ['P', 'R', 'O', 'F', 'I', 'L', 'E', 'S'] = none := hpr
  have hv : V (validationInput coerce
      ({ st with logs := st.logs ++ [LogEvent.info validatingMsg] })) = Except.error e := by
    cases coerce with
    | true => exact h
    | false => exact h
  simp [initEnv, profileAndSchemaPhase, hpr', runSchemaPhase, get, hv]

/-- C5 (witness). -/
theorem validation_failure_message_witness :
    (get false (fun _ => Except.error sampleZodError : Validator Unit) emptyState).2
      = Except.error "Zod validation error: m\nA: Required".toList
    ∧ (initEnv jsNone false twoFileFs none
        (some (fun _ => Except.error sampleZodError : Validator Unit)) emptyState).2
      = Except.error "Zod validation error: m\nA: Required".toList := by
  have h := validation_failure_message false
      (fun _ => Except.error sampleZodError : Validator Unit) emptyState sampleZodError rfl
  constructor
  · rw [h.1]; rfl
  · rw [h.2.2.2 jsNone twoFileFs rfl]; rfl

/-- C8: a failing file read is logged on the error channel and propagated
immediately.  For any load sequence `pre ++ p :: post` where `pre` reads
succeed and `p` fails with `e`, the whole load equals the state after
loading `pre` plus exactly one further read attempt (`p`), the info and
error log entries for `p`, and the error result: no file of `post` is read
or merged.  The same holds for `initialize` over that sequence: it returns
the aborted load verbatim — in particular no profile file is read and no
validation runs. -/
theorem read_failure_aborts (js : Js) (coerce : Bool) (fs : Fs)
    (pre : List Chars) (p : Chars) (post : List Chars) (e : Chars) (st : DState)
    (hpre : ∀ q ∈ pre, ∃ c, fs q = Except.ok c)
    (hp : fs p = Except.error e) :
    loadAll js coerce fs st (pre ++ p :: post)
      = ({ (loadAll js coerce fs st pre).1 with
            reads := (loadAll js coerce fs st pre).1.reads ++ [p],
            logs := (loadAll js coerce fs st pre).1.logs
                      ++ [LogEvent.info (loadingMsg p), LogEvent.error (loadFailMsg p e)] },
         Except.error e)
    ∧ (∀ (α : Type) (schema : Option (Validator α)),
        initEnv js coerce fs (some (pre ++ p :: post)) schema st
          = loadAll js coerce fs st (pre ++ p :: post)) := by
  have h1 := loadAll_abort js coerce fs pre p post e st hpre hp
  refine ⟨h1, ?_⟩
  intro α schema
  simp [initEnv, h1]

/-- C8 (witness): reading `fileA`, then the unreadable `nope`, aborts
before `fileB`: only two reads happen, the error is logged, and the error
propagates. -/
theorem read_failure_aborts_witness :
    (loadAll jsNone false twoFileFs emptyState
        ["fileA".toList, "nope".toList, "fileB".toList]).1.reads
      = ["fileA".toList, "nope".toList]
    ∧ (loadAll jsNone false twoFileFs emptyState
        ["fileA".toList, "nope".toList, "fileB".toList]).2
      = Except.error "missing".toList
    ∧ (loadAll jsNone false twoFileFs emptyState
        ["fileA".toList, "nope".toList, "fileB".toList]).1.logs.getLast?
      = some (LogEvent.error (loadFailMsg "nope".toList "missing".toList)) := by
  have h := read_failure_aborts jsNone false twoFileFs ["fileA".toList] "nope".toList
      ["fileB".toList] "missing".toList emptyState
      (by intro q hq
          rw [List.mem_singleton] at hq
          subst hq
          exact ⟨"K=1".toList, rfl⟩)
      rfl
  have hl : (["fileA".toList] ++ "nope".toList :: ["fileB".toList])
      = ["fileA".toList, "nope".toList, "fileB".toList] := rfl
  rw [hl] at h
  refine ⟨?_, ?_, ?_⟩
  · rw [h.1]; decide
  · rw [h.1]
  · rw [h.1]; decide

/-- C9: the `PROFILES` selector is split on commas, entries trimmed, empty
entries discarded in order (`profilesOf`), and `.env.<profile>` is loaded
for each remaining entry in list order — the read sequence of an
`initialize` call with no explicit paths is exactly the derived path list.
A selector of only whitespace and commas yields no profiles, and with
explicit paths present it causes zero additional reads beyond them. -/
theorem profile_selector_loading (js : Js) (coerce : Bool) (fs : Fs) :
    profilesOf "   ,  , ".toList = []
    ∧ (∀ (v : Chars) (st : DState),
        lookupVal st.env "PROFILES".toList = some v →
        (∀ q, ∃ c, fs q = Except.ok c) →
        (initEnv js coerce fs none (none : Option (Validator Unit)) st).1.reads
          = st.reads ++ (profilesOf v).map (fun p => ".env.".toList ++ p))
    ∧ (∀ (ps : List Chars) (st : DState),
        lookupVal ((loadAll js coerce fs st ps).1).env "PROFILES".toList
            = some "   ,  , ".toList →
        (initEnv js coerce fs (some ps) (none : Option (Validator Unit)) st).1.reads
          = ((loadAll js coerce fs st ps).1).reads) := by
  refine ⟨by decide, ?_, ?_⟩
  · intro v st hpr htot
    have hpr' : lookupVal st.env ['P', 'R', 'O', 'F', 'I', 'L', 'E', 'S'] = some v := hpr
    by_cases hlen : 0 < (profilesOf v).length
    · obtain ⟨r1, r2⟩ := loadAll_ok_state js coerce fs
        ((profilesOf v).map (fun p => ".env.".toList ++ p))
        { st with logs := st.logs ++ [LogEvent.info (profilesMsg (profilesOf v))] }
        (fun q _ => htot q)
      rcases hX : loadAll js coerce fs
          { st with logs := st.logs ++ [LogEvent.info (profilesMsg (profilesOf v))] }
          ((profilesOf v).map (fun p => ".env.".toList ++ p)) with ⟨st3, r⟩
      rw [hX] at r1 r2
      cases r with
      | error e => exact absurd r1 (by simp)
      | ok u =>
        cases u
        have hstep : initEnv js coerce fs none (none : Option (Validator Unit)) st
            = profileAndSchemaPhase js coerce fs none st := rfl
        have hfin : (initEnv js coerce fs none (none : Option (Validator Unit)) st).1
            = st3 := by
          rw [hstep]
          unfold profileAndSchemaPhase
          simp only [hpr, Option.map_some']
          rw [if_pos hlen, hX]
          rfl
        rw [hfin]
        exact r2
    · have hnil : profilesOf v = [] :=
        List.length_eq_zero.mp (Nat.eq_zero_of_not_pos hlen)
      have hstep : initEnv js coerce fs none (none : Option (Validator Unit)) st
          = profileAndSchemaPhase js coerce fs none st := rfl
      have hfin : (initEnv js coerce fs none (none : Option (Validator Unit)) st).1 = st := by
        rw [hstep]
        unfold profileAndSchemaPhase
        simp only [hpr, Option.map_some', hnil]
        rfl
      rw [hfin, hnil]
      simp
  · intro ps st hsel
    have hprofiles : profilesOf "   ,  , ".toList = [] := by decide
    rcases hX : loadAll js coerce fs st ps with ⟨st1, r⟩
    have hsel' : lookupVal st1.env "PROFILES".toList = some "   ,  , ".toList := by
      rw [hX] at hsel
      exact hsel
    have hstep : initEnv js coerce fs (some ps) (none : Option (Validator Unit)) st
        = (match loadAll js coerce fs st ps with
           | (st1, Except.error e) => (st1, Except.error e)
           | (st1, Except.ok _) => profileAndSchemaPhase js coerce fs none st1) := rfl
    rw [hstep, hX]
    cases r with
    | error e => rfl
    | ok u =>
      cases u
      show (profileAndSchemaPhase js coerce fs none st1).1.reads = st1.reads
      unfold profileAndSchemaPhase
      simp only [hsel', Option.map_some', hprofiles]
      rfl

/-- C9 (witness): the whitespace-and-commas selector loads nothing; the
selector `"a, b"` loads `.env.a` then `.env.b` in order. -/
theorem profile_selector_loading_witness :
    (initEnv jsNone false (fun _ => Except.ok "K=1".toList) none
        (none : Option (Validator Unit))
        ⟨[("PROFILES".toList, "   ,  , ".toList)], [], [], []⟩).1.reads = []
    ∧ (initEnv jsNone false (fun _ => Except.ok "K=1".toList) none
        (none : Option (Validator Unit))
        ⟨[("PROFILES".toList, "a, b".toList)], [], [], []⟩).1.reads
      = [".env.a".toList, ".env.b".toList] := by
  have h1 := (profile_selector_loading jsNone false (fun _ => Except.ok "K=1".toList)).2.1
      "   ,  , ".toList ⟨[("PROFILES".toList, "   ,  , ".toList)], [], [], []⟩ rfl
      (fun _ => ⟨"K=1".toList, rfl⟩)
  have h2 := (profile_selector_loading jsNone false (fun _ => Except.ok "K=1".toList)).2.1
      "a, b".toList ⟨[("PROFILES".toList, "a, b".toList)], [], [], []⟩ rfl
      (fun _ => ⟨"K=1".toList, rfl⟩)
  constructor
  · rw [h1]; decide
  · rw [h2]; decide

/-- C10: for every key a parse produces, `load` writes the `String()`
image of the (possibly coerced) value into `process.env` and the
unconverted value into `parsedValues`; the data `get` validates
(`validationInput`) is `parsedValues` when coercion is enabled and
`process.env` (string-valued) otherwise, and `get` returns exactly the
validator's outcome on that data (failures wrapped by
`toPrettyZodError`). -/
theorem load_writes_and_get_input (js : Js) (coerce : Bool) (fs : Fs)
    (st : DState) (path c K : Chars) (v : JSValue)
    (hc : fs path = Except.ok c)
    (hk : lookupVal (parseEnvFile js coerce c) K = some v) :
    lookupVal ((loadFile js coerce fs st path).1).env K = some (jsString v)
    ∧ lookupVal ((loadFile js coerce fs st path).1).parsedValues K = some v
    ∧ lookupVal (validationInput true (loadFile js coerce fs st path).1) K = some v
    ∧ lookupVal (validationInput false (loadFile js coerce fs st path).1) K
        = some (JSValue.str (jsString v))
    ∧ (∀ (α : Type) (V : Validator α),
        (get coerce V (loadFile js coerce fs st path).1).2
          = (V (validationInput coerce (loadFile js coerce fs st path).1)).mapError
              toPrettyZodError) := by
  have hparsed : (loadFile js coerce fs st path).1.parsedValues
      = applyEntries st.parsedValues (parseEnvFile js coerce c) := by
    rw [loadFile_ok js coerce fs st path c hc]
  have henv : (loadFile js coerce fs st path).1.env
      = applyEntries st.env
          ((parseEnvFile js coerce c).map (fun q => (q.1, jsString q.2))) := by
    rw [loadFile_ok js coerce fs st path c hc]
  have hlast : lookupLast (parseEnvFile js coerce c) K = some v := by
    rw [lookupLast_parseEnvFile, hk]
  have h2 : lookupVal ((loadFile js coerce fs st path).1).parsedValues K = some v := by
    rw [hparsed, lookupVal_applyEntries, hlast]
    rfl
  have h1 : lookupVal ((loadFile js coerce fs st path).1).env K = some (jsString v) := by
    rw [henv, lookupVal_applyEntries, lookupLast_mapValues, hlast]
    rfl
  refine ⟨h1, h2, by simpa [validationInput] using h2, ?_, ?_⟩
  · simp only [validationInput, Bool.false_eq_true, if_false]
    rw [lookupVal_mapValues, h1]
    rfl
  · intro α V
    cases hV : V (validationInput coerce (loadFile js coerce fs st path).1) with
    | ok r => simp [get, hV, Except.mapError]
    | error e2 => simp [get, hV, Except.mapError]

/-- C10 (witness): loading `PORT=3000` with coercion enabled puts the
string `"3000"` into the environment and the number `3000` into
`parsedValues` (which is exactly what coercion-mode validation sees). -/
theorem load_writes_and_get_input_witness :
    lookupVal ((loadFile jsNone true (fun _ => Except.ok "PORT=3000".toList)
        emptyState ".env".toList).1).env "PORT".toList = some "3000".toList
    ∧ lookupVal ((loadFile jsNone true (fun _ => Except.ok "PORT=3000".toList)
        emptyState ".env".toList).1).parsedValues "PORT".toList
      = some (JSValue.num ⟨3000, 0⟩)
    ∧ lookupVal (validationInput true (loadFile jsNone true
        (fun _ => Except.ok "PORT=3000".toList) emptyState ".env".toList).1) "PORT".toList
      = some (JSValue.num ⟨3000, 0⟩) := by
  have h := load_writes_and_get_input jsNone true (fun _ => Except.ok "PORT=3000".toList)
      emptyState ".env".toList "PORT=3000".toList "PORT".toList
      (JSValue.num ⟨3000, 0⟩) rfl rfl
  exact ⟨by rw [h.1]; rfl, h.2.1, h.2.2.1⟩

end Dotenv
